import Mathlib

/-!
Verification of the projectile-motion engine in `src/main.py`
(repository muhammadali182-q/Ballistic-Missile).

The embedding follows the class `ProjectilePhysics` line by line, with
Python floats modelled as real numbers:

* `ProjectilePhysics` holds the constructor arguments `v0`, `angle_deg`,
  `h0`.  The quantities computed by `calculate` — `vx`, `vy`, `t_flight`,
  `max_height`, `range`, and the 500 samples `x_points` / `y_points` at
  `np.linspace(0, t_flight, 500)` — are derived functions of the state.
* `get_times_for_y` mirrors the quadratic solver: coefficients
  `qa = -0.5*GRAVITY`, `qb = vy`, `qc = h0 - y_target`, discriminant
  `qdisc`, roots `t1`, `t2`, filtered to `0 ≤ t ≤ t_flight`.
* `is_target_reachable` mirrors the loop over the candidate times,
  accepting the first `t` with `|vx*t - x_target| < 1e-2` and returning
  the detail record `{t, actual_x, actual_y}`; a miss is `none`
  (Python's `(False, None)`).
* `get_closest_point_to` mirrors `np.argmin` over the Euclidean
  distances to the 500 samples (first index of the minimum) and the
  reconstruction of the sample time as `idx * t_flight / (len - 1)`.
* `simulate_construct` mirrors the validation in
  `ProjectileSimulator.on_simulate` that guards the construction of a
  `ProjectilePhysics` value.
-/

namespace Ballistic

noncomputable section

/-- Gravity constant `ProjectilePhysics.GRAVITY = 9.81` (m/s²). -/
def GRAVITY : ℝ := 9.81

/-- The arguments stored by `ProjectilePhysics.__init__` (`air_resistance`
is never read by the engine and is omitted). -/
structure ProjectilePhysics where
  v0 : ℝ
  angle_deg : ℝ
  h0 : ℝ

namespace ProjectilePhysics

/-- `theta = math.radians(self.angle_deg)` in `calculate`. -/
def theta (p : ProjectilePhysics) : ℝ := p.angle_deg * (Real.pi / 180)

/-- `self.vx = self.v0 * math.cos(theta)`. -/
def vx (p : ProjectilePhysics) : ℝ := p.v0 * Real.cos p.theta

/-- `self.vy = self.v0 * math.sin(theta)`. -/
def vy (p : ProjectilePhysics) : ℝ := p.v0 * Real.sin p.theta

/-- `discrim = self.vy**2 + 2 * self.GRAVITY * self.h0` in `calculate`. -/
def discrim (p : ProjectilePhysics) : ℝ := p.vy ^ 2 + 2 * GRAVITY * p.h0

/-- `self.t_flight = (self.vy + math.sqrt(discrim)) / self.GRAVITY`. -/
def t_flight (p : ProjectilePhysics) : ℝ :=
  (p.vy + Real.sqrt p.discrim) / GRAVITY

/-- `self.max_height = self.h0 + (self.vy**2) / (2 * self.GRAVITY)`. -/
def max_height (p : ProjectilePhysics) : ℝ :=
  p.h0 + p.vy ^ 2 / (2 * GRAVITY)

/-- `self.range = self.vx * self.t_flight`. -/
def range (p : ProjectilePhysics) : ℝ := p.vx * p.t_flight

/-- `num=500` in `np.linspace(0, self.t_flight, num=500)`. -/
def sampleCount : ℕ := 500

/-- The i-th node of `np.linspace(0, t_flight, 500)`:
`t_i = i * t_flight / 499` (endpoints included, 499 equal intervals). -/
def t_sample (p : ProjectilePhysics) (i : ℕ) : ℝ :=
  i * p.t_flight / ((sampleCount : ℝ) - 1)

/-- The horizontal position `x(t) = vx * t` (used for `x_points` and for
`x = self.vx * t` in `is_target_reachable`). -/
def x_at (p : ProjectilePhysics) (t : ℝ) : ℝ := p.vx * t

/-- The height `y(t) = h0 + vy*t - 0.5*GRAVITY*t**2` (the formula of
`self.y_points`). -/
def y_at (p : ProjectilePhysics) (t : ℝ) : ℝ :=
  p.h0 + p.vy * t - 0.5 * GRAVITY * t ^ 2

/-- `self.x_points = self.vx * t` evaluated at the i-th linspace node. -/
def x_points (p : ProjectilePhysics) (i : ℕ) : ℝ := p.x_at (p.t_sample i)

/-- `self.y_points = self.h0 + self.vy * t - 0.5 * self.GRAVITY * t**2`
evaluated at the i-th linspace node. -/
def y_points (p : ProjectilePhysics) (i : ℕ) : ℝ := p.y_at (p.t_sample i)

/-- The 500 trajectory samples `(x_points[i], y_points[i])` in order. -/
def samples (p : ProjectilePhysics) : List (ℝ × ℝ) :=
  (List.range sampleCount).map fun i => (p.x_points i, p.y_points i)

/-- `a = -0.5 * self.GRAVITY` in `get_times_for_y`. -/
def qa : ℝ := -0.5 * GRAVITY

/-- `b = self.vy` in `get_times_for_y`. -/
def qb (p : ProjectilePhysics) : ℝ := p.vy

/-- `c = self.h0 - y_target` in `get_times_for_y`. -/
def qc (p : ProjectilePhysics) (y_target : ℝ) : ℝ := p.h0 - y_target

/-- `disc = b**2 - 4*a*c` in `get_times_for_y`. -/
def qdisc (p : ProjectilePhysics) (y_target : ℝ) : ℝ :=
  (p.qb) ^ 2 - 4 * qa * (p.qc y_target)

/-- `t1 = (-b + math.sqrt(disc)) / (2*a)` in `get_times_for_y`. -/
def t1 (p : ProjectilePhysics) (y_target : ℝ) : ℝ :=
  (-(p.qb) + Real.sqrt (p.qdisc y_target)) / (2 * qa)

/-- `t2 = (-b - math.sqrt(disc)) / (2*a)` in `get_times_for_y`. -/
def t2 (p : ProjectilePhysics) (y_target : ℝ) : ℝ :=
  (-(p.qb) - Real.sqrt (p.qdisc y_target)) / (2 * qa)

/-- `ProjectilePhysics.get_times_for_y`: empty when `disc < 0`, else the
roots `t1`, `t2` in that order, each kept when `0 ≤ t ≤ t_flight`. -/
def get_times_for_y (p : ProjectilePhysics) (y_target : ℝ) : List ℝ :=
  if p.qdisc y_target < 0 then []
  else
    [p.t1 y_target, p.t2 y_target].filter fun t =>
      decide (0 ≤ t ∧ t ≤ p.t_flight)

end ProjectilePhysics

/-- The detail dictionary `{"t": t, "actual_x": x, "actual_y": y_target}`
returned by `is_target_reachable` on a hit. -/
structure HitDetails where
  t : ℝ
  actual_x : ℝ
  actual_y : ℝ

namespace ProjectilePhysics

/-- The loop of `is_target_reachable`: scan the candidate times in order
and return the detail record of the first `t` with
`abs(x - x_target) < 1e-2`; `none` models the miss result `(False, None)`. -/
def firstHitAux (p : ProjectilePhysics) (x_target y_target : ℝ) :
    List ℝ → Option HitDetails
  | [] => none
  | t :: ts =>
    if |p.vx * t - x_target| < 1e-2 then some ⟨t, p.vx * t, y_target⟩
    else p.firstHitAux x_target y_target ts

/-- `ProjectilePhysics.is_target_reachable`; `some details` models the
return `(True, details)` and `none` models `(False, None)`. -/
def is_target_reachable (p : ProjectilePhysics) (x_target y_target : ℝ) :
    Option HitDetails :=
  p.firstHitAux x_target y_target (p.get_times_for_y y_target)

end ProjectilePhysics

/-- The tuple `(min_distance, point_x, point_y, t)` returned by
`get_closest_point_to`. -/
structure ClosestResult where
  dist : ℝ
  x : ℝ
  y : ℝ
  t : ℝ

namespace ProjectilePhysics

/-- The Euclidean distance from the target to the i-th sample:
`np.sqrt((x_points - x_target)**2 + (y_points - y_target)**2)` at index i. -/
def distTo (p : ProjectilePhysics) (x_target y_target : ℝ) (i : ℕ) : ℝ :=
  Real.sqrt ((p.x_points i - x_target) ^ 2 + (p.y_points i - y_target) ^ 2)

/-- `idx = np.argmin(distances)`: the first index of the 500 samples whose
distance to the target is minimal (`List.argmin` keeps the earliest of
equal values, as `np.argmin` does). -/
def closestIdx (p : ProjectilePhysics) (x_target y_target : ℝ) : ℕ :=
  ((List.range sampleCount).argmin (p.distTo x_target y_target)).getD 0

/-- `ProjectilePhysics.get_closest_point_to`: the minimal distance, the
sample at the minimizing index, and the reconstructed time
`idx * t_flight / (len(x_points) - 1)`. -/
def get_closest_point_to (p : ProjectilePhysics) (x_target y_target : ℝ) :
    ClosestResult :=
  ⟨p.distTo x_target y_target (p.closestIdx x_target y_target),
   p.x_points (p.closestIdx x_target y_target),
   p.y_points (p.closestIdx x_target y_target),
   (p.closestIdx x_target y_target) * p.t_flight / ((sampleCount : ℝ) - 1)⟩

/-- The domain constraints of §3 of the spec, exactly as `on_simulate`
checks them (negation of `v0 < 0 or angle < 0 or angle > 90 or h0 < 0`). -/
def ValidParams (v0 angle h0 : ℝ) : Prop :=
  0 ≤ v0 ∧ 0 ≤ angle ∧ angle ≤ 90 ∧ 0 ≤ h0

/-- A `ProjectilePhysics` value built from parameters satisfying the
domain constraints. -/
def Valid (p : ProjectilePhysics) : Prop :=
  ValidParams p.v0 p.angle_deg p.h0

end ProjectilePhysics

/-- The error taxonomy of §7 of the spec, as surfaced by `on_simulate`
(`InvalidParameters` is the warning for a rejected launch triple,
`InvalidTarget` the warning for a negative target coordinate). -/
inductive SimError where
  | invalidParameters
  | invalidTarget
deriving DecidableEq

/-- The guarded construction performed by `ProjectileSimulator.on_simulate`:
the guard `if v0 < 0 or angle < 0 or angle > 90 or h0 < 0` rejects the
triple before `ProjectilePhysics(v0, angle, h0)` is built. -/
def simulate_construct (v0 angle h0 : ℝ) : Except SimError ProjectilePhysics :=
  if v0 < 0 ∨ angle < 0 ∨ 90 < angle ∨ h0 < 0 then
    Except.error SimError.invalidParameters
  else
    Except.ok ⟨v0, angle, h0⟩

/-- The methods the class `ProjectilePhysics` defines in `src/main.py`. -/
def physicsMethods : List String :=
  ["__init__", "calculate", "get_times_for_y", "is_target_reachable",
   "get_closest_point_to"]

/-- The method name the X-only branch of `on_simulate` invokes on the
physics object: `self.physics.get_y_at_x(self.target_x)`. -/
def xOnlyQueryMethod : String := "get_y_at_x"

/-- The sample-sequence invariant of §3 of the spec: exactly 500 points,
first sample `(0, h0)`, last sample's height within `1e-6` of 0, and
x-coordinates monotonically increasing along the sequence. -/
def ProjectilePhysics.SamplesSpec (p : ProjectilePhysics) : Prop :=
  p.samples.length = 500 ∧
  p.samples.head? = some (0, p.h0) ∧
  (∃ q, p.samples.getLast? = some q ∧ |q.2| ≤ 1e-6) ∧
  p.samples.Pairwise fun q r => q.1 ≤ r.1

/-- The earliest-hit property: the candidate list of `get_times_for_y` is
non-decreasing, and a reported hit time is least among all times in
`[0, t_flight]` at which the trajectory passes the target height with
the horizontal position within the `1e-2` tolerance of `x_target`. -/
def ProjectilePhysics.EarliestHit (p : ProjectilePhysics)
    (x_target y_target : ℝ) : Prop :=
  (p.get_times_for_y y_target).Sorted (· ≤ ·) ∧
  ∀ d : HitDetails, p.is_target_reachable x_target y_target = some d →
    ∀ t : ℝ, 0 ≤ t → t ≤ p.t_flight → p.y_at t = y_target →
      |p.vx * t - x_target| < 1e-2 → d.t ≤ t

/-! Basic facts about the constants and the derived scalars. -/

theorem GRAVITY_pos : (0 : ℝ) < GRAVITY := by norm_num [GRAVITY]

theorem GRAVITY_ne : (GRAVITY : ℝ) ≠ 0 := ne_of_gt GRAVITY_pos

theorem qa_neg : ProjectilePhysics.qa < 0 := by
  norm_num [ProjectilePhysics.qa, GRAVITY]

theorem qa_ne : ProjectilePhysics.qa ≠ 0 := ne_of_lt qa_neg

namespace ProjectilePhysics

theorem theta_nonneg (p : ProjectilePhysics) (h : p.Valid) : 0 ≤ p.theta := by
  have hpi : (0 : ℝ) < Real.pi := Real.pi_pos
  have := h.2.1
  unfold theta
  positivity

theorem theta_le (p : ProjectilePhysics) (h : p.Valid) :
    p.theta ≤ Real.pi / 2 := by
  have hpi : (0 : ℝ) < Real.pi := Real.pi_pos
  have h90 : p.angle_deg ≤ 90 := h.2.2.1
  unfold theta
  calc p.angle_deg * (Real.pi / 180) ≤ 90 * (Real.pi / 180) := by
        apply mul_le_mul_of_nonneg_right h90
        positivity
    _ = Real.pi / 2 := by ring

theorem vy_nonneg (p : ProjectilePhysics) (h : p.Valid) : 0 ≤ p.vy := by
  have hs : 0 ≤ Real.sin p.theta := by
    apply Real.sin_nonneg_of_nonneg_of_le_pi (p.theta_nonneg h)
    have := p.theta_le h
    have hpi : (0 : ℝ) < Real.pi := Real.pi_pos
    linarith
  exact mul_nonneg h.1 hs

theorem vx_nonneg (p : ProjectilePhysics) (h : p.Valid) : 0 ≤ p.vx := by
  have hc : 0 ≤ Real.cos p.theta := by
    apply Real.cos_nonneg_of_neg_pi_div_two_le_of_le
    · have hpi : (0 : ℝ) < Real.pi := Real.pi_pos
      have := p.theta_nonneg h
      linarith
    · exact p.theta_le h
  exact mul_nonneg h.1 hc

theorem discrim_nonneg (p : ProjectilePhysics) (h : p.Valid) :
    0 ≤ p.discrim := by
  have h0 : 0 ≤ p.h0 := h.2.2.2
  have hg : (0 : ℝ) < GRAVITY := GRAVITY_pos
  unfold discrim
  positivity

theorem t_flight_nonneg (p : ProjectilePhysics) (h : p.Valid) :
    0 ≤ p.t_flight := by
  have h1 : 0 ≤ p.vy := p.vy_nonneg h
  have h2 : 0 ≤ Real.sqrt p.discrim := Real.sqrt_nonneg _
  have hg : (0 : ℝ) < GRAVITY := GRAVITY_pos
  unfold t_flight
  positivity

end ProjectilePhysics

/-- C1: the X-only branch of `on_simulate` calls the physics method
`get_y_at_x`, but `ProjectilePhysics` defines no method of that name, so
an X-only target query raises `AttributeError` instead of evaluating the
height or signalling an out-of-range result. -/
theorem x_only_query_method_missing :
    xOnlyQueryMethod ∉ physicsMethods := by decide

/-- C2: `on_simulate` rejects exactly the triples violating
`initial_speed ≥ 0`, `0 ≤ angle ≤ 90`, `initial_height ≥ 0` with the
`InvalidParameters` warning before a `ProjectilePhysics` value is built,
and constructs the trajectory for every triple satisfying them. -/
theorem simulate_construct_validates (v0 angle h0 : ℝ) :
    (ProjectilePhysics.ValidParams v0 angle h0 →
      simulate_construct v0 angle h0 = Except.ok ⟨v0, angle, h0⟩) ∧
    (¬ ProjectilePhysics.ValidParams v0 angle h0 →
      simulate_construct v0 angle h0 =
        Except.error SimError.invalidParameters) := by
  constructor
  · intro hv
    obtain ⟨h1, h2, h3, h4⟩ := hv
    unfold simulate_construct
    rw [if_neg]
    rintro (h | h | h | h) <;> linarith
  · intro hv
    have hc : v0 < 0 ∨ angle < 0 ∨ 90 < angle ∨ h0 < 0 := by
      by_contra hcon
      push_neg at hcon
      exact hv ⟨hcon.1, hcon.2.1, hcon.2.2.1, hcon.2.2.2⟩
    unfold simulate_construct
    rw [if_pos hc]

namespace ProjectilePhysics

theorem vy_eq_zero_iff (p : ProjectilePhysics) (h : p.Valid) :
    p.vy = 0 ↔ p.v0 = 0 ∨ p.angle_deg = 0 := by
  have hpi : (0 : ℝ) < Real.pi := Real.pi_pos
  unfold vy
  rw [mul_eq_zero]
  constructor
  · rintro (hv | hs)
    · exact Or.inl hv
    · right
      have htheta : p.theta = 0 := by
        rw [← Real.sin_eq_zero_iff_of_lt_of_lt ?hl ?hr]
        · exact hs
        case hl =>
          have := p.theta_nonneg h
          linarith
        case hr =>
          have := p.theta_le h
          linarith
      have := mul_eq_zero.mp htheta
      rcases this with ha | hb
      · exact ha
      · exfalso
        have : Real.pi = 0 := by linarith [hb]
        exact Real.pi_ne_zero this
  · rintro (hv | ha)
    · exact Or.inl hv
    · right
      have : p.theta = 0 := by unfold theta; rw [ha]; ring
      rw [this, Real.sin_zero]

end ProjectilePhysics

/-- C4 counterexample: the launch `v0 = 0, angle = 45°, h0 = 0` is valid,
reaches `max_height = initial_height`, yet has `angle_degrees ≠ 0`, so
"equality iff `angle_degrees = 0`" is false on the code. -/
theorem max_height_eq_at_zero_speed :
    ProjectilePhysics.Valid ⟨0, 45, 0⟩ ∧
    ¬ ((ProjectilePhysics.max_height ⟨0, 45, 0⟩ =
          (⟨0, 45, 0⟩ : ProjectilePhysics).h0) ↔
        (⟨0, 45, 0⟩ : ProjectilePhysics).angle_deg = 0) := by
  constructor
  · show ProjectilePhysics.ValidParams 0 45 0
    norm_num [ProjectilePhysics.ValidParams]
  · intro hiff
    have hmh : ProjectilePhysics.max_height ⟨0, 45, 0⟩ =
        (⟨0, 45, 0⟩ : ProjectilePhysics).h0 := by
      show (⟨0, 45, 0⟩ : ProjectilePhysics).h0 +
          (ProjectilePhysics.vy ⟨0, 45, 0⟩) ^ 2 / (2 * GRAVITY) = _
      have hvy : ProjectilePhysics.vy ⟨0, 45, 0⟩ = 0 := by
        simp [ProjectilePhysics.vy]
      rw [hvy]
      norm_num
    have h45 : (45 : ℝ) = 0 := hiff.mp hmh
    norm_num at h45

/-- C4 amended: for every valid trajectory `max_height ≥ initial_height`,
with equality exactly when the vertical velocity vanishes, i.e. when
`v0 = 0` or `angle_degrees = 0` (not "iff `angle_degrees = 0`"). -/
theorem max_height_ge_iff (p : ProjectilePhysics) (h : p.Valid) :
    p.h0 ≤ p.max_height ∧
      (p.max_height = p.h0 ↔ p.v0 = 0 ∨ p.angle_deg = 0) := by
  have hg : (0 : ℝ) < GRAVITY := GRAVITY_pos
  constructor
  · unfold ProjectilePhysics.max_height
    have : 0 ≤ p.vy ^ 2 / (2 * GRAVITY) := by positivity
    linarith
  · unfold ProjectilePhysics.max_height
    rw [add_comm, add_left_eq_self]
    rw [div_eq_zero_iff]
    constructor
    · rintro (hsq | habs)
      · exact (p.vy_eq_zero_iff h).mp ((pow_eq_zero_iff (two_ne_zero)).mp hsq)
      · exfalso
        have : (0 : ℝ) < 2 * GRAVITY := by linarith
        linarith [habs ▸ this]
    · intro hcase
      left
      have : p.vy = 0 := (p.vy_eq_zero_iff h).mpr hcase
      rw [this]
      ring

/-- C4 witness: the amended statement instantiated at the valid launch
`v0 = 0, angle = 0, h0 = 0`. -/
theorem max_height_ge_iff_witness :
    ProjectilePhysics.Valid ⟨0, 0, 0⟩ ∧
      ((⟨0, 0, 0⟩ : ProjectilePhysics).h0 ≤
          ProjectilePhysics.max_height ⟨0, 0, 0⟩ ∧
        (ProjectilePhysics.max_height ⟨0, 0, 0⟩ =
            (⟨0, 0, 0⟩ : ProjectilePhysics).h0 ↔
          (⟨0, 0, 0⟩ : ProjectilePhysics).v0 = 0 ∨
            (⟨0, 0, 0⟩ : ProjectilePhysics).angle_deg = 0)) := by
  have hv : ProjectilePhysics.Valid ⟨0, 0, 0⟩ := by
    show ProjectilePhysics.ValidParams 0 0 0
    norm_num [ProjectilePhysics.ValidParams]
  exact ⟨hv, max_height_ge_iff ⟨0, 0, 0⟩ hv⟩

namespace ProjectilePhysics

theorem qdisc_at_max_height (p : ProjectilePhysics) :
    p.qdisc p.max_height = 0 := by
  unfold qdisc qa qb qc max_height
  field_simp [GRAVITY_ne]
  ring

theorem t1_at_max_height (p : ProjectilePhysics) :
    p.t1 p.max_height = p.vy / GRAVITY := by
  unfold t1
  rw [p.qdisc_at_max_height, Real.sqrt_zero, add_zero]
  unfold qb qa
  rw [div_eq_div_iff (by norm_num [GRAVITY]) GRAVITY_ne]
  ring

theorem t2_at_max_height (p : ProjectilePhysics) :
    p.t2 p.max_height = p.vy / GRAVITY := by
  unfold t2
  rw [p.qdisc_at_max_height, Real.sqrt_zero, sub_zero]
  unfold qb qa
  rw [div_eq_div_iff (by norm_num [GRAVITY]) GRAVITY_ne]
  ring

theorem apex_time_le_t_flight (p : ProjectilePhysics) :
    p.vy / GRAVITY ≤ p.t_flight := by
  unfold t_flight
  rw [div_le_div_iff₀ GRAVITY_pos GRAVITY_pos]
  have := Real.sqrt_nonneg p.discrim
  nlinarith [GRAVITY_pos]

/-- Auxiliary evaluation shared below: at `y_target = max_height` the
discriminant vanishes and both computed roots equal the apex time
`vy / GRAVITY`, each of which passes the `0 ≤ t ≤ t_flight` filter. -/
theorem apex_pair_aux (p : ProjectilePhysics) (h : p.Valid) :
    p.get_times_for_y p.max_height = [p.vy / GRAVITY, p.vy / GRAVITY] := by
  unfold get_times_for_y
  rw [if_neg (by rw [p.qdisc_at_max_height]; norm_num)]
  rw [p.t1_at_max_height, p.t2_at_max_height]
  have h1 : 0 ≤ p.vy / GRAVITY := div_nonneg (p.vy_nonneg h) GRAVITY_pos.le
  have h2 : p.vy / GRAVITY ≤ p.t_flight := p.apex_time_le_t_flight
  simp [List.filter_cons, h1, h2]

end ProjectilePhysics

/-- C3 counterexample: for the valid launch `v0 = 0, angle = 0, h0 = 1`
the query `y_target = max_height` returns a sequence of length 2 (the
coincident root is appended once per computed root), not exactly one
time. -/
theorem apex_query_returns_two_times :
    (ProjectilePhysics.get_times_for_y ⟨0, 0, 1⟩
        (ProjectilePhysics.max_height ⟨0, 0, 1⟩)).length ≠ 1 := by
  have hv : ProjectilePhysics.Valid ⟨0, 0, 1⟩ := by
    show ProjectilePhysics.ValidParams 0 0 1
    norm_num [ProjectilePhysics.ValidParams]
  rw [ProjectilePhysics.apex_pair_aux ⟨0, 0, 1⟩ hv]
  norm_num

/-- C3 amended: at `y_target = max_height` the solver returns the apex
time `vy / GRAVITY` listed twice — both roots coincide, each passes the
window filter, and each is appended — so the sequence holds exactly one
distinct time but has length two. -/
theorem apex_times_pair (p : ProjectilePhysics) (h : p.Valid) :
    p.get_times_for_y p.max_height = [p.vy / GRAVITY, p.vy / GRAVITY] :=
  p.apex_pair_aux h

/-- C3 witness: the amended statement instantiated at the valid launch
`v0 = 0, angle = 0, h0 = 1`. -/
theorem apex_times_pair_witness :
    ProjectilePhysics.Valid ⟨0, 0, 1⟩ ∧
      ProjectilePhysics.get_times_for_y ⟨0, 0, 1⟩
          (ProjectilePhysics.max_height ⟨0, 0, 1⟩) =
        [ProjectilePhysics.vy ⟨0, 0, 1⟩ / GRAVITY,
         ProjectilePhysics.vy ⟨0, 0, 1⟩ / GRAVITY] := by
  have hv : ProjectilePhysics.Valid ⟨0, 0, 1⟩ := by
    show ProjectilePhysics.ValidParams 0 0 1
    norm_num [ProjectilePhysics.ValidParams]
  exact ⟨hv, apex_times_pair ⟨0, 0, 1⟩ hv⟩

/-- C7: the solver returns the empty sequence whenever the discriminant
`b² - 4ac` is negative, and in particular for every `y_target` strictly
above `max_height + 1e-9`. -/
theorem times_empty_above_max_height (p : ProjectilePhysics) (y : ℝ) :
    (p.qdisc y < 0 → p.get_times_for_y y = []) ∧
    (p.max_height + 1e-9 < y → p.get_times_for_y y = []) := by
  have hbase : p.qdisc y < 0 → p.get_times_for_y y = [] := by
    intro hlt
    unfold ProjectilePhysics.get_times_for_y
    rw [if_pos hlt]
  refine ⟨hbase, ?_⟩
  intro hy
  apply hbase
  have hG := GRAVITY_pos
  have key : p.vy ^ 2 = 2 * GRAVITY * (p.max_height - p.h0) := by
    unfold ProjectilePhysics.max_height
    field_simp
    ring
  unfold ProjectilePhysics.qdisc ProjectilePhysics.qa ProjectilePhysics.qb
    ProjectilePhysics.qc
  nlinarith [mul_pos hG (show (0 : ℝ) < y - p.max_height by linarith)]

/-- C7 witness: the valid launch `v0 = 0, angle = 0, h0 = 0` has
`max_height = 0`, and the query `y_target = 1` yields no time. -/
theorem times_empty_above_max_height_witness :
    ProjectilePhysics.max_height ⟨0, 0, 0⟩ + 1e-9 < 1 ∧
      ProjectilePhysics.get_times_for_y ⟨0, 0, 0⟩ 1 = [] := by
  have hmh : ProjectilePhysics.max_height ⟨0, 0, 0⟩ = 0 := by
    have hvy : ProjectilePhysics.vy ⟨0, 0, 0⟩ = 0 := by
      simp [ProjectilePhysics.vy]
    unfold ProjectilePhysics.max_height
    rw [hvy]
    norm_num
  have hlt : ProjectilePhysics.max_height ⟨0, 0, 0⟩ + 1e-9 < 1 := by
    rw [hmh]; norm_num
  exact ⟨hlt, (times_empty_above_max_height ⟨0, 0, 0⟩ 1).2 hlt⟩

namespace ProjectilePhysics

theorem t_sample_zero (p : ProjectilePhysics) : p.t_sample 0 = 0 := by
  simp [t_sample]

theorem t_sample_last (p : ProjectilePhysics) :
    p.t_sample 499 = p.t_flight := by
  unfold t_sample sampleCount
  push_cast
  ring_nf

theorem t_sample_mono (p : ProjectilePhysics) (h : p.Valid) {i j : ℕ}
    (hij : i ≤ j) : p.t_sample i ≤ p.t_sample j := by
  unfold t_sample
  have hT := p.t_flight_nonneg h
  have hcast : (i : ℝ) ≤ (j : ℝ) := Nat.cast_le.mpr hij
  have h1 : (i : ℝ) * p.t_flight ≤ (j : ℝ) * p.t_flight :=
    mul_le_mul_of_nonneg_right hcast hT
  have h500 : ((sampleCount : ℝ) - 1) = 499 := by norm_num [sampleCount]
  rw [h500]
  linarith

theorem y_at_t_flight (p : ProjectilePhysics) (h : p.Valid) :
    p.y_at p.t_flight = 0 := by
  have hd : Real.sqrt p.discrim ^ 2 = p.discrim :=
    Real.sq_sqrt (p.discrim_nonneg h)
  have hG : (GRAVITY : ℝ) ≠ 0 := GRAVITY_ne
  have hT : GRAVITY * p.t_flight = p.vy + Real.sqrt p.discrim := by
    unfold t_flight
    field_simp
  have expand : p.y_at p.t_flight =
      (2 * GRAVITY * p.h0 + 2 * (GRAVITY * p.t_flight) * p.vy -
        (GRAVITY * p.t_flight) ^ 2) / (2 * GRAVITY) := by
    unfold y_at
    field_simp
    ring
  rw [expand, hT, div_eq_zero_iff]
  left
  have hdisc : p.discrim = p.vy ^ 2 + 2 * GRAVITY * p.h0 := rfl
  linear_combination -hd - hdisc

theorem samples_head (p : ProjectilePhysics) :
    p.samples.head? = some (0, p.h0) := by
  unfold samples
  rw [List.head?_map, List.head?_range]
  norm_num [sampleCount]
  constructor
  · unfold x_points x_at
    rw [p.t_sample_zero, mul_zero]
  · unfold y_points y_at
    rw [p.t_sample_zero]
    ring

theorem samples_getLast (p : ProjectilePhysics) :
    p.samples.getLast? = some (p.x_points 499, p.y_points 499) := by
  rw [List.getLast?_eq_getElem?]
  have hlen : p.samples.length = 500 := by simp [samples, sampleCount]
  rw [hlen]
  unfold samples
  rw [show (500 - 1 : ℕ) = 499 by norm_num, List.getElem?_map,
    List.getElem?_range (show 499 < sampleCount by norm_num [sampleCount])]
  rfl

theorem samples_pairwise (p : ProjectilePhysics) (h : p.Valid) :
    p.samples.Pairwise fun q r => q.1 ≤ r.1 := by
  unfold samples
  rw [List.pairwise_map]
  apply (List.pairwise_lt_range sampleCount).imp
  intro i j hij
  show p.x_points i ≤ p.x_points j
  unfold x_points x_at
  exact mul_le_mul_of_nonneg_left (p.t_sample_mono h (le_of_lt hij))
    (p.vx_nonneg h)

end ProjectilePhysics

/-- C8: for every valid trajectory the sample sequence has exactly 500
points, starts at `(0, initial_height)`, ends at height 0 (within the
stated `1e-6` tolerance — here exactly 0 in real arithmetic), and its
x-coordinates are monotonically increasing along the sequence. -/
theorem samples_invariant (p : ProjectilePhysics) (h : p.Valid) :
    p.SamplesSpec := by
  refine ⟨by simp [ProjectilePhysics.samples, ProjectilePhysics.sampleCount],
    p.samples_head, ?_, p.samples_pairwise h⟩
  refine ⟨(p.x_points 499, p.y_points 499), p.samples_getLast, ?_⟩
  have hy : p.y_points 499 = 0 := by
    unfold ProjectilePhysics.y_points
    rw [p.t_sample_last]
    exact p.y_at_t_flight h
  rw [hy]
  norm_num

/-- C8 witness: the sample invariant instantiated at the valid launch
`v0 = 0, angle = 0, h0 = 0`. -/
theorem samples_invariant_witness :
    ProjectilePhysics.Valid ⟨0, 0, 0⟩ ∧
      ProjectilePhysics.SamplesSpec ⟨0, 0, 0⟩ := by
  have hv : ProjectilePhysics.Valid ⟨0, 0, 0⟩ := by
    show ProjectilePhysics.ValidParams 0 0 0
    norm_num [ProjectilePhysics.ValidParams]
  exact ⟨hv, samples_invariant ⟨0, 0, 0⟩ hv⟩

namespace ProjectilePhysics

theorem firstHitAux_nil (p : ProjectilePhysics) (xt yt : ℝ) :
    p.firstHitAux xt yt [] = none := rfl

theorem firstHitAux_cons (p : ProjectilePhysics) (xt yt t0 : ℝ)
    (ts : List ℝ) :
    p.firstHitAux xt yt (t0 :: ts) =
      if |p.vx * t0 - xt| < 1e-2 then some ⟨t0, p.vx * t0, yt⟩
      else p.firstHitAux xt yt ts := rfl

theorem firstHitAux_isSome_iff (p : ProjectilePhysics) (xt yt : ℝ)
    (l : List ℝ) :
    (p.firstHitAux xt yt l).isSome ↔ ∃ t ∈ l, |p.vx * t - xt| < 1e-2 := by
  induction l with
  | nil => simp [firstHitAux_nil]
  | cons t0 ts ih =>
    rw [firstHitAux_cons]
    by_cases hp : |p.vx * t0 - xt| < 1e-2
    · rw [if_pos hp]
      simp only [Option.isSome_some, true_iff]
      exact ⟨t0, List.mem_cons_self t0 ts, hp⟩
    · rw [if_neg hp, ih]
      constructor
      · rintro ⟨t, ht, hpt⟩
        exact ⟨t, List.mem_cons_of_mem _ ht, hpt⟩
      · rintro ⟨t, ht, hpt⟩
        rcases List.mem_cons.mp ht with rfl | h2
        · exact absurd hpt hp
        · exact ⟨t, h2, hpt⟩

theorem firstHitAux_some_spec (p : ProjectilePhysics) (xt yt : ℝ)
    (l : List ℝ) (d : HitDetails) (hd : p.firstHitAux xt yt l = some d) :
    ∃ pre post, l = pre ++ d.t :: post ∧
      (∀ t ∈ pre, ¬ |p.vx * t - xt| < 1e-2) ∧
      |p.vx * d.t - xt| < 1e-2 ∧
      d.actual_x = p.vx * d.t ∧ d.actual_y = yt := by
  induction l with
  | nil => rw [firstHitAux_nil] at hd; exact absurd hd (by simp)
  | cons t0 ts ih =>
    rw [firstHitAux_cons] at hd
    by_cases hp : |p.vx * t0 - xt| < 1e-2
    · rw [if_pos hp] at hd
      have hd2 : (⟨t0, p.vx * t0, yt⟩ : HitDetails) = d := Option.some.inj hd
      subst hd2
      exact ⟨[], ts, by simp, by simp, hp, rfl, rfl⟩
    · rw [if_neg hp] at hd
      obtain ⟨pre, post, heq, hpre, hpd, hx, hy⟩ := ih hd
      refine ⟨t0 :: pre, post, by rw [heq]; rfl, ?_, hpd, hx, hy⟩
      intro t ht
      rcases List.mem_cons.mp ht with rfl | h2
      · exact hp
      · exact hpre t h2

theorem firstHitAux_min (p : ProjectilePhysics) (xt yt : ℝ) (l : List ℝ)
    (hl : l.Sorted (· ≤ ·)) (d : HitDetails)
    (hd : p.firstHitAux xt yt l = some d) :
    ∀ t ∈ l, |p.vx * t - xt| < 1e-2 → d.t ≤ t := by
  induction l with
  | nil => rw [firstHitAux_nil] at hd; exact absurd hd (by simp)
  | cons t0 ts ih =>
    rw [List.sorted_cons] at hl
    rw [firstHitAux_cons] at hd
    by_cases hp : |p.vx * t0 - xt| < 1e-2
    · rw [if_pos hp] at hd
      have hd2 : (⟨t0, p.vx * t0, yt⟩ : HitDetails) = d := Option.some.inj hd
      intro t ht hpt
      rcases List.mem_cons.mp ht with rfl | hts
      · rw [← hd2]
      · rw [← hd2]
        exact hl.1 t hts
    · rw [if_neg hp] at hd
      intro t ht hpt
      rcases List.mem_cons.mp ht with rfl | hts
      · exact absurd hpt hp
      · exact ih hl.2 hd t hts hpt

theorem t1_le_t2 (p : ProjectilePhysics) (yt : ℝ) : p.t1 yt ≤ p.t2 yt := by
  unfold t1 t2
  have hs := Real.sqrt_nonneg (p.qdisc yt)
  have h2a : 2 * qa < 0 := by nlinarith [qa_neg]
  rw [div_le_div_right_of_neg h2a]
  linarith

theorem times_sorted (p : ProjectilePhysics) (yt : ℝ) :
    (p.get_times_for_y yt).Sorted (· ≤ ·) := by
  unfold get_times_for_y
  split_ifs with h
  · exact List.sorted_nil
  · exact List.Sorted.filter _
      (by simp [List.sorted_cons, p.t1_le_t2 yt])

theorem root_eq_t1_or_t2 (p : ProjectilePhysics) (yt t : ℝ)
    (h : p.y_at t = yt) :
    0 ≤ p.qdisc yt ∧ (t = p.t1 yt ∨ t = p.t2 yt) := by
  have hroot : qa * t ^ 2 + p.qb * t + p.qc yt = 0 := by
    unfold y_at at h
    unfold qa qb qc
    linear_combination h
  have hsq : p.qdisc yt = (2 * qa * t + p.qb) ^ 2 := by
    unfold qdisc
    linear_combination (-4 * qa) * hroot
  have hnn : 0 ≤ p.qdisc yt := by rw [hsq]; positivity
  refine ⟨hnn, ?_⟩
  have hs : Real.sqrt (p.qdisc yt) = |2 * qa * t + p.qb| := by
    rw [hsq, Real.sqrt_sq_eq_abs]
  have h2a : (2 : ℝ) * qa ≠ 0 := mul_ne_zero two_ne_zero qa_ne
  rcases abs_cases (2 * qa * t + p.qb) with ⟨habs, _⟩ | ⟨habs, _⟩
  · left
    unfold t1
    rw [hs, habs]
    field_simp
  · right
    unfold t2
    rw [hs, habs]
    field_simp

theorem mem_times_of_root (p : ProjectilePhysics) (yt t : ℝ)
    (hy : p.y_at t = yt) (h0 : 0 ≤ t) (hT : t ≤ p.t_flight) :
    t ∈ p.get_times_for_y yt := by
  obtain ⟨hnn, hcase⟩ := p.root_eq_t1_or_t2 yt t hy
  unfold get_times_for_y
  rw [if_neg (not_lt.mpr hnn)]
  rw [List.mem_filter]
  refine ⟨?_, by simp [h0, hT]⟩
  rcases hcase with rfl | rfl
  · exact List.mem_cons_self _ _
  · exact List.mem_cons_of_mem _ (List.mem_cons_self _ _)

end ProjectilePhysics

/-- C5: `is_target_reachable` reports a hit exactly when some candidate
time from `get_times_for_y` has `|vx·t - x_target| < 0.01` (absolute
tolerance), and on a hit it returns the first accepted candidate in the
order the times were produced. -/
theorem reachable_iff_first_accepted (p : ProjectilePhysics) (xt yt : ℝ) :
    ((p.is_target_reachable xt yt).isSome ↔
      ∃ t ∈ p.get_times_for_y yt, |p.vx * t - xt| < 1e-2) ∧
    ∀ d : HitDetails, p.is_target_reachable xt yt = some d →
      ∃ pre post, p.get_times_for_y yt = pre ++ d.t :: post ∧
        (∀ t ∈ pre, ¬ |p.vx * t - xt| < 1e-2) ∧
        |p.vx * d.t - xt| < 1e-2 := by
  constructor
  · exact p.firstHitAux_isSome_iff xt yt _
  · intro d hd
    obtain ⟨pre, post, heq, hpre, hpd, _, _⟩ :=
      p.firstHitAux_some_spec xt yt _ d hd
    exact ⟨pre, post, heq, hpre, hpd⟩

/-- C9: the candidate list of `get_times_for_y` is non-decreasing
(`t1 ≤ t2` since the computed roots are divided by `2a < 0`), so a hit
reported by `is_target_reachable` carries the earliest time in
`[0, t_flight]` at which the target is hit within tolerance. -/
theorem hit_time_earliest (p : ProjectilePhysics) (xt yt : ℝ) :
    p.EarliestHit xt yt := by
  refine ⟨p.times_sorted yt, ?_⟩
  intro d hd t h0 hT hy hpt
  have hmem : t ∈ p.get_times_for_y yt := p.mem_times_of_root yt t hy h0 hT
  exact p.firstHitAux_min xt yt _ (p.times_sorted yt) d hd t hmem hpt

/-- C10: on a hit the detail record echoes the queried `target_y` as
`actual_y`, reports `actual_x = vx·t` (which may differ from `target_x`
by up to the `0.01` tolerance), and a miss carries no detail record. -/
theorem hit_details_echo (p : ProjectilePhysics) (xt yt : ℝ)
    (d : HitDetails) (hd : p.is_target_reachable xt yt = some d) :
    d.actual_y = yt ∧ d.actual_x = p.vx * d.t ∧ |d.actual_x - xt| < 1e-2 := by
  obtain ⟨pre, post, heq, hpre, hpd, hx, hy⟩ :=
    p.firstHitAux_some_spec xt yt _ d hd
  refine ⟨hy, hx, ?_⟩
  rw [hx]
  exact hpd

theorem vy_p1 : ProjectilePhysics.vy ⟨0, 0, 1⟩ = 0 := by
  simp [ProjectilePhysics.vy]

theorem valid_p1 : ProjectilePhysics.Valid ⟨0, 0, 1⟩ := by
  show ProjectilePhysics.ValidParams 0 0 1
  norm_num [ProjectilePhysics.ValidParams]

theorem max_height_p1 : ProjectilePhysics.max_height ⟨0, 0, 1⟩ = 1 := by
  unfold ProjectilePhysics.max_height
  rw [vy_p1]
  norm_num

theorem times_p1 : ProjectilePhysics.get_times_for_y ⟨0, 0, 1⟩ 1 = [0, 0] := by
  have h := ProjectilePhysics.apex_pair_aux ⟨0, 0, 1⟩ valid_p1
  rw [max_height_p1, vy_p1] at h
  rw [h]
  norm_num

theorem reach_p1 :
    ProjectilePhysics.is_target_reachable ⟨0, 0, 1⟩ 0 1 =
      some ⟨0, 0, 1⟩ := by
  unfold ProjectilePhysics.is_target_reachable
  rw [times_p1, ProjectilePhysics.firstHitAux_cons, if_pos (by norm_num)]
  norm_num

/-- C10 witness: the echo property instantiated at the valid launch
`v0 = 0, angle = 0, h0 = 1` with target `(0, 1)`, which is hit at `t = 0`. -/
theorem hit_details_echo_witness :
    (⟨0, 0, 1⟩ : HitDetails).actual_y = 1 ∧
      (⟨0, 0, 1⟩ : HitDetails).actual_x =
        ProjectilePhysics.vx ⟨0, 0, 1⟩ * (⟨0, 0, 1⟩ : HitDetails).t ∧
      |(⟨0, 0, 1⟩ : HitDetails).actual_x - 0| < 1e-2 :=
  hit_details_echo ⟨0, 0, 1⟩ 0 1 ⟨0, 0, 1⟩ reach_p1

namespace ProjectilePhysics

theorem closestIdx_mem_argmin (p : ProjectilePhysics) (xt yt : ℝ) :
    p.closestIdx xt yt ∈
      (List.range sampleCount).argmin (p.distTo xt yt) := by
  unfold closestIdx
  cases h : (List.range sampleCount).argmin (p.distTo xt yt) with
  | none =>
    exfalso
    rw [List.argmin_eq_none] at h
    simp [sampleCount] at h
  | some m => simp [h]

theorem closestIdx_lt (p : ProjectilePhysics) (xt yt : ℝ) :
    p.closestIdx xt yt < sampleCount :=
  List.mem_range.mp (List.argmin_mem (p.closestIdx_mem_argmin xt yt))

end ProjectilePhysics

/-- C6: `get_closest_point_to` always returns a result (it is total by
construction, the 500-sample list being non-empty even for the degenerate
zero-duration trajectory); its distance is minimal over all 500 samples,
and its reported time is `index · t_flight / (sample_count - 1)` for the
returned sample's index. -/
theorem closest_point_spec (p : ProjectilePhysics) (xt yt : ℝ) :
    (∀ i < ProjectilePhysics.sampleCount,
        (p.get_closest_point_to xt yt).dist ≤ p.distTo xt yt i) ∧
    (p.get_closest_point_to xt yt).t =
      (p.closestIdx xt yt) * p.t_flight /
        ((ProjectilePhysics.sampleCount : ℝ) - 1) ∧
    (p.get_closest_point_to xt yt).x = p.x_points (p.closestIdx xt yt) ∧
    (p.get_closest_point_to xt yt).y = p.y_points (p.closestIdx xt yt) ∧
    p.closestIdx xt yt < ProjectilePhysics.sampleCount := by
  refine ⟨?_, rfl, rfl, rfl, p.closestIdx_lt xt yt⟩
  intro i hi
  exact List.le_of_mem_argmin (List.mem_range.mpr hi)
    (p.closestIdx_mem_argmin xt yt)

end

end Ballistic
